import Mathlib

/-!
Verification of the `sysctl` utility (procps 3.0.5, `sysctl.c`).

The development shallowly embeds the program's pure logic:
strings become `List Char`, the filesystem becomes explicit oracle
functions passed as parameters (`fopen` results, directory trees), and
each C function becomes a Lean function returning its `int` return code
together with the observable events it produces (stdout chunks, stderr
messages, filesystem opens and writes).
-/

namespace Sysctl

/-- Strings are modelled as lists of characters (C strings without the NUL). -/
abbrev Str := List Char

/-- Model of `static const char PROC_PATH[] = "/proc/sys/";`. -/
def PROC_PATH : Str := "/proc/sys/".toList

/-- Model of `static const char DEFAULT_PRELOAD[] = "/etc/sysctl.conf";`. -/
def DEFAULT_PRELOAD : Str := "/etc/sysctl.conf".toList

/-- Linux `errno` value for "no such file or directory". -/
def ENOENT : Nat := 2

/-- Linux `errno` value for "permission denied". -/
def EACCES : Nat := 13

/-- The two global display flags `PrintName` and `PrintNewline`. -/
structure Flags where
  printName : Bool
  printNewline : Bool
deriving Repr, DecidableEq

/-- Flags as initialised at the top of `main` (both `true`). -/
def initFlags : Flags := ⟨true, true⟩

/-! ## The `slashdot` transform (sysctl.c lines 71-81) -/

/-- Membership in the character class `"/."` used by `strpbrk(p, "/.")`. -/
def isDelim (c : Char) : Bool := c == '/' || c == '.'

/-- The per-character substitution performed at each delimiter position by
the loop body `if(c==old) *p=new; if(c==new) *p=old;`. -/
def swapOldNew (old new c : Char) : Char :=
  if c = old then new else if c = new then old else c

/-- Model of `slashdot(p, old, new)`: find the first character of class `"/."`;
if there is none, or it is already `new`, return the string unchanged;
otherwise substitute `old`/`new` at every delimiter position. -/
def slashdot (s : Str) (old new : Char) : Str :=
  match s.find? isDelim with
  | none => s
  | some c =>
    if c = new then s
    else s.map (fun d => if isDelim d then swapOldNew old new d else d)

/-- The call `slashdot(name, '.', '/')` as used to build the file path. -/
def KeyToPath (s : Str) : Str := slashdot s '.' '/'

/-- The call `slashdot(name, '/', '.')` as used to build the display name. -/
def PathToKey (s : Str) : Str := slashdot s '/' '.'

/-- Modelled from the spec's words for claim C3: "for every occurrence of
`.` or `/`, swap the two characters", applied uniformly to the whole
string. Used only to compare the code's `slashdot` against the spec. -/
def swapAllSpec (s : Str) : Str :=
  s.map (fun c => if c = '.' then '/' else if c = '/' then '.' else c)

/-! ## stderr messages

Each `fprintf(stderr, ...)` template becomes one constructor carrying the
arguments that are substituted into it. -/

inductive Err where
  | noEquals (s : Str)                    -- ERR_NO_EQUALS
  | malformed (s : Str)                   -- ERR_MALFORMED_SETTING
  | invalidKey (k : Str)                  -- ERR_INVALID_KEY
  | permissionDenied (k : Str)            -- ERR_PERMISSION_DENIED
  | unknownWriting (e : Nat) (k : Str)    -- ERR_UNKNOWN_WRITING
  | unknownReading (e : Nat) (k : Str)    -- ERR_UNKNOWN_READING
  | openingDir (p : Str)                  -- ERR_OPENING_DIR
  | preloadFile (f : Str)                 -- ERR_PRELOAD_FILE
  | badLine (f : Str) (n : Nat)           -- WARN_BAD_LINE
  | statFail (p : Str)                    -- perror(tmpdir)
  | unknownParam (s : Str)                -- ERR_UNKNOWN_PARAMETER
deriving Repr, DecidableEq

/-! ## WriteSetting (sysctl.c lines 252-324)

The filesystem is an oracle `fopenW : Str → Except Nat Unit` giving, for
each path, either success or the `errno` with which `fopen(path, "w")`
fails. -/

/-- Result of `WriteSetting`: the return code, the chunks printed to
stdout, the stderr messages, the paths passed to `fopen`, and the
`(path, data)` pairs actually written. -/
structure WResult where
  rc : Int
  out : List Str
  err : List Err
  opens : List Str
  writes : List (Str × Str)
deriving Repr, DecidableEq

/-- The success-path echo of `WriteSetting`:
`PrintName` → `"outname = value\n"`, else `"value\n"` or `"value"`
according to `PrintNewline`. -/
def writeEcho (fl : Flags) (outname value : Str) : Str :=
  if fl.printName then outname ++ " = ".toList ++ value ++ ['\n']
  else if fl.printNewline then value ++ ['\n'] else value

def WriteSetting (fopenW : Str → Except Nat Unit) (fl : Flags) (setting : Str) :
    WResult :=
  match setting.findIdx? (· = '=') with
  | none => ⟨-1, [], [.noEquals setting], [], []⟩        -- `if (!equals)`
  | some i =>
    let name := setting.take i
    let value := setting.drop (i + 1)
    -- `if (!*name || !*value || name == equals)`; `name == equals` and
    -- `!*name` both amount to `name = []` here (an empty setting has no '=')
    if name = [] ∨ value = [] then ⟨-2, [], [.malformed setting], [], []⟩
    else
      -- tmpname = PROC_PATH ++ name, with slashdot applied past the prefix
      let tmpname := PROC_PATH ++ slashdot name '.' '/'
      let outname := slashdot name '/' '.'
      match fopenW tmpname with
      | .error e =>
        ⟨-1, [],
          [if e = ENOENT then .invalidKey outname
           else if e = EACCES then .permissionDenied outname
           else .unknownWriting e outname],
          [tmpname], []⟩
      | .ok _ =>
        -- `fprintf(fp, "%s\n", value)` then the stdout echo
        ⟨0, [writeEcho fl outname value], [], [tmpname],
          [(tmpname, value ++ ['\n'])]⟩

/-! ## ReadSetting (sysctl.c lines 332-387)

The filesystem oracle `fopenR : Str → Except Nat (List Str)` gives, for
each path, the `errno` of a failing `fopen(path, "r")` or the sequence of
chunks successive `fgets` calls return (each chunk normally ends in
`'\n'`; the last one need not). -/

/-- Result of `ReadSetting`: return code, stdout chunks, stderr. -/
structure RResult where
  rc : Int
  out : List Str
  err : List Err
deriving Repr, DecidableEq

def ReadSetting (fopenR : Str → Except Nat (List Str)) (fl : Flags)
    (setting : Str) : RResult :=
  -- `if (!setting || !*setting)` prints ERR_INVALID_KEY but does not return
  let preErr : List Err := if setting = [] then [.invalidKey setting] else []
  let tmpname := PROC_PATH ++ slashdot setting '.' '/'
  let outname := slashdot setting '/' '.'
  match fopenR tmpname with
  | .error e =>
    ⟨-1, [],
      preErr ++
        [if e = ENOENT then .invalidKey outname
         else if e = EACCES then .permissionDenied outname
         else .unknownReading e outname]⟩
  | .ok chunks =>
    ⟨0,
      chunks.map (fun c =>
        if fl.printName then outname ++ " = ".toList ++ c
        else if !fl.printNewline then c.takeWhile (· ≠ '\n') else c),
      preErr⟩

/-- Modelled from the spec's words for claim C8: the trailing terminator is
suppressed "on the final emitted line" only; earlier lines keep theirs.
Used only to compare `ReadSetting` against the spec. -/
def readOutSpecFinalOnly (chunks : List Str) : List Str :=
  match chunks with
  | [] => []
  | _ :: _ => chunks.dropLast ++ [(chunks.getLast!).takeWhile (· ≠ '\n')]

/-! ## Preload (sysctl.c lines 157-244)

A preload source is a list of lines (the text `fgets` returns for each
line, without the terminating newline, which
`StripLeadingAndTrailingSpaces` removes in the C code anyway). -/

/-- Whitespace recognised by the trailing-strip loop of
`StripLeadingAndTrailingSpaces` (space, tab, newline, carriage return). -/
def isTrailWs (c : Char) : Bool := c == ' ' || c == '\t' || c == '\n' || c == '\r'

/-- Whitespace recognised by the leading-skip loops (space, tab only). -/
def isLeadWs (c : Char) : Bool := c == ' ' || c == '\t'

/-- The in-place effect of `StripLeadingAndTrailingSpaces` on its buffer:
the trailing whitespace run is zeroed out, except that the loop's
`t != oneline` guard never erases the first character. -/
def stripTrailingInPlace (s : Str) : Str :=
  match s with
  | [] => []
  | c :: cs => c :: (cs.reverse.dropWhile isTrailWs).reverse

/-- The value `StripLeadingAndTrailingSpaces` returns: the stripped buffer
with leading spaces and tabs also skipped. -/
def StripLeadingAndTrailingSpaces (s : Str) : Str :=
  (stripTrailingInPlace s).dropWhile isLeadWs

/-- What `Preload` does with one line. -/
inductive LineAction where
  | skip
  | warn
  | write (s : Str)
deriving Repr, DecidableEq

/-- The per-line logic of the `while (fgets(...))` loop body.
`strtok(t, "=")` skips a leading run of `'='` and returns the token up to
the next `'='` (or `NULL` if nothing remains); the follow-up
`strtok(NULL, "\n\r")` continues after the consumed separator. -/
def lineAction (line : Str) : LineAction :=
  let t := StripLeadingAndTrailingSpaces line
  if t.length < 2 then .skip
  else if t.head? = some '#' ∨ t.head? = some ';' then .skip
  else
    let u := t.dropWhile (· == '=')
    let tok1 := u.takeWhile (· != '=')
    if tok1 = [] then .warn            -- `if (!name || !*name)`
    else
      -- `StripLeadingAndTrailingSpaces(name)`: return value discarded, so
      -- only the in-place trailing strip is effective
      let name := stripTrailingInPlace tok1
      let rest := u.drop tok1.length
      let rem := if rest = [] then [] else rest.tail
      let tok2 := (rem.dropWhile (fun c => c == '\n' || c == '\r')).takeWhile
        (fun c => c != '\n' && c != '\r')
      if tok2 = [] then .warn          -- `if (!value || !*value)`
      else
        let value := tok2.dropWhile isLeadWs
        .write (name ++ '=' :: value)  -- `sprintf(buffer, "%s=%s", ...)`

/-- Observable events of `Preload`: warnings (source name and 1-based line
number, from `WARN_BAD_LINE`) and the reassembled strings dispatched to
`WriteSetting`. -/
inductive PEvent where
  | pwarn (file : Str) (lineNo : Nat)
  | pwrite (s : Str)
deriving Repr, DecidableEq

/-- The `fgets` loop with its line counter `n`. -/
def preloadLines (file : Str) (n : Nat) : List Str → List PEvent
  | [] => []
  | l :: ls =>
    (match lineAction l with
     | .skip => []
     | .warn => [.pwarn file n]
     | .write s => [.pwrite s]) ++ preloadLines file (n + 1) ls

/-- Model of `Preload` on an opened source (`n` starts at 0 and is incremented
to 1
before the first line is examined). -/
def Preload (file : Str) (lines : List Str) : List PEvent :=
  preloadLines file 1 lines

/-! ## DisplayAll (sysctl.c lines 395-430)

A directory listing is modelled as the sequence of `readdir` results,
each already classified by what `stat` would say about it:
`tfile` (regular entry, with the subsequent `fopen(..., "r")` outcome),
`tstatfail` (the `stat` call fails), `tdir` (subdirectory whose own
`opendir` succeeds, with its listing), `tdirfail` (subdirectory whose
`opendir` fails). -/

deriving instance DecidableEq for Except

inductive Tree where
  | tnil
  | tfile (name : Str) (res : Except Nat (List Str)) (rest : Tree)
  | tstatfail (name : Str) (rest : Tree)
  | tdir (name : Str) (sub : Tree) (rest : Tree)
  | tdirfail (name : Str) (rest : Tree)
deriving Repr, DecidableEq

/-- Observable events of the enumeration: a `ReadSetting` call on a leaf
(with the key it got and the return code it produced), a `perror` after a
failed `stat`, and an `ERR_OPENING_DIR` report. -/
inductive DEvent where
  | dread (key : Str) (rc : Int)
  | dstat (p : Str)
  | dopenfail (p : Str)
deriving Repr, DecidableEq

/-- The `while ((de = readdir(dp)))` loop. `skip` counts the entries the
two blind `readdir(dp)` calls at line 409 still have to consume; `rc` is
the accumulator updated by `rc |= ReadSetting(...)`. In the `tdir` case
the first component of the recursive result is dropped: line 419 calls
`DisplayAll(tmpdir, ShowTableUtil)` without using its return value. -/
def goEntries (fl : Flags) (path : Str) (skip : Nat) (rc : Int) (t : Tree) :
    Int × List DEvent :=
  match skip, t with
  | _, .tnil => (rc, [])
  | n + 1, .tfile _ _ rest => goEntries fl path n rc rest
  | n + 1, .tstatfail _ rest => goEntries fl path n rc rest
  | n + 1, .tdir _ _ rest => goEntries fl path n rc rest
  | n + 1, .tdirfail _ rest => goEntries fl path n rc rest
  | 0, .tfile name res rest =>
    let key := (path ++ name).drop PROC_PATH.length
    let rr := ReadSetting (fun _ => res) fl key
    let tail := goEntries fl path 0 (Int.lor rc rr.rc) rest
    (tail.1, .dread key rr.rc :: tail.2)
  | 0, .tstatfail name rest =>
    let tail := goEntries fl path 0 rc rest
    (tail.1, .dstat (path ++ name) :: tail.2)
  | 0, .tdir name sub rest =>
    let s := goEntries fl (path ++ name ++ ['/']) 2 0 sub
    let tail := goEntries fl path 0 rc rest
    (tail.1, s.2 ++ tail.2)
  | 0, .tdirfail name rest =>
    let tail := goEntries fl path 0 rc rest
    (tail.1, .dopenfail (path ++ name ++ ['/']) :: tail.2)
termination_by structural t

/-- Model of `DisplayAll(path, ShowTableUtil)` on a directory whose `opendir`
succeeded with listing `t`. `ShowTableUtil` is accepted but never read by
the C function's body, so it does not influence the model. -/
def DisplayAllT (fl : Flags) (_stu : Bool) (path : Str) (t : Tree) :
    Int × List DEvent :=
  goEntries fl path 2 0 t

/-- The regular (leaf) entries a single directory level processes after
the positional skip: `(name, fopen outcome)` pairs. -/
def topFiles (skip : Nat) (t : Tree) : List (Str × Except Nat (List Str)) :=
  match skip, t with
  | _, .tnil => []
  | n + 1, .tfile _ _ rest => topFiles n rest
  | n + 1, .tstatfail _ rest => topFiles n rest
  | n + 1, .tdir _ _ rest => topFiles n rest
  | n + 1, .tdirfail _ rest => topFiles n rest
  | 0, .tfile name res rest => (name, res) :: topFiles 0 rest
  | 0, .tstatfail _ rest => topFiles 0 rest
  | 0, .tdir _ _ rest => topFiles 0 rest
  | 0, .tdirfail _ rest => topFiles 0 rest
termination_by structural t

/-- The subdirectory entries a single directory level recurses into after
the positional skip. -/
def topDirs (skip : Nat) (t : Tree) : List (Str × Tree) :=
  match skip, t with
  | _, .tnil => []
  | n + 1, .tfile _ _ rest => topDirs n rest
  | n + 1, .tstatfail _ rest => topDirs n rest
  | n + 1, .tdir _ _ rest => topDirs n rest
  | n + 1, .tdirfail _ rest => topDirs n rest
  | 0, .tfile _ _ rest => topDirs 0 rest
  | 0, .tstatfail _ rest => topDirs 0 rest
  | 0, .tdir name sub rest => (name, sub) :: topDirs 0 rest
  | 0, .tdirfail _ rest => topDirs 0 rest
termination_by structural t

/-- The entries whose `stat` fails at a single directory level, after the
positional skip. -/
def topStats (skip : Nat) (t : Tree) : List Str :=
  match skip, t with
  | _, .tnil => []
  | n + 1, .tfile _ _ rest => topStats n rest
  | n + 1, .tstatfail _ rest => topStats n rest
  | n + 1, .tdir _ _ rest => topStats n rest
  | n + 1, .tdirfail _ rest => topStats n rest
  | 0, .tfile _ _ rest => topStats 0 rest
  | 0, .tstatfail name rest => name :: topStats 0 rest
  | 0, .tdir _ _ rest => topStats 0 rest
  | 0, .tdirfail _ rest => topStats 0 rest
termination_by structural t

/-- Drop the first entry of a listing (whatever it is). -/
def ttail : Tree → Tree
  | .tnil => .tnil
  | .tfile _ _ rest => rest
  | .tstatfail _ rest => rest
  | .tdir _ _ rest => rest
  | .tdirfail _ rest => rest

/-- Whether the `fopen(..., "r")` outcome of a leaf is a failure. -/
def resFails (r : Except Nat (List Str)) : Bool :=
  match r with
  | .error _ => true
  | .ok _ => false

/-- Modelled from the spec's words for claim C9: "exactly the entries
named `.` and `..` are skipped", every other entry classified by the
metadata query, regardless of position. Events only (C9 is about which
entries are visited). Used only to compare `DisplayAllT` against the
claim. -/
def enumSpecEvents (fl : Flags) (path : Str) : Tree → List DEvent
  | .tnil => []
  | .tfile name res rest =>
    if name = ".".toList ∨ name = "..".toList then enumSpecEvents fl path rest
    else
      let key := (path ++ name).drop PROC_PATH.length
      .dread key (ReadSetting (fun _ => res) fl key).rc ::
        enumSpecEvents fl path rest
  | .tstatfail name rest =>
    if name = ".".toList ∨ name = "..".toList then enumSpecEvents fl path rest
    else .dstat (path ++ name) :: enumSpecEvents fl path rest
  | .tdir name sub rest =>
    if name = ".".toList ∨ name = "..".toList then enumSpecEvents fl path rest
    else
      enumSpecEvents fl (path ++ name ++ ['/']) sub ++ enumSpecEvents fl path rest
  | .tdirfail name rest =>
    if name = ".".toList ∨ name = "..".toList then enumSpecEvents fl path rest
    else .dopenfail (path ++ name ++ ['/']) :: enumSpecEvents fl path rest

/-! ## main (sysctl.c lines 87-147) -/

/-- The ambient filesystem: `fopen(..., "w")` outcomes, `fopen(..., "r")`
outcomes, and the listing behind `PROC_PATH` for `-a`/`-A`/`-X`
(`none` if `opendir(PROC_PATH)` fails). -/
structure Env where
  fopenW : Str → Except Nat Unit
  fopenR : Str → Except Nat (List Str)
  root : Option Tree

/-- Observable events of the dispatcher loop. -/
inductive MEvent where
  | mwrite (s : Str) (rc : Int)
  | mread (k : Str) (rc : Int)
  | mpreload (file : Str)
  | mdisplay (rc : Int)
  | musage
  | munknown (s : Str)
deriving Repr, DecidableEq

/-- The call `DisplayAll(PROC_PATH, ...)` including the `opendir` of the root. -/
def displayRoot (env : Env) (fl : Flags) (stu : Bool) : Int × List DEvent :=
  match env.root with
  | none => (-1, [.dopenfail PROC_PATH])
  | some t => DisplayAllT fl stu PROC_PATH t

/-- The `for (; argv && *argv && **argv; argv++)` loop of `main`, with the
running flag state, `SwitchesAllowed`, `WriteMode` and `ReturnCode`.
An empty-string argument falsifies `**argv` and stops the loop. -/
def mainLoop (env : Env) (fl : Flags) (sw wm : Bool) (rc : Int) :
    List Str → Int × List MEvent
  | [] => (rc, [])
  | arg :: rest =>
    if arg = [] then (rc, [])
    else if sw ∧ arg.head? = some '-' then
      -- `switch((*argv)[1])`, written as the equivalent comparison chain
      if arg[1]? = some 'b' then
        -- `PrintNewline = false` falling through to `PrintName = false`
        mainLoop env ⟨false, false⟩ sw wm rc rest
      else if arg[1]? = some 'n' then
        mainLoop env ⟨false, fl.printNewline⟩ sw wm rc rest
      else if arg[1]? = some 'w' then mainLoop env fl false true rc rest
      else if arg[1]? = some 'p' then
        -- `argv++` peeks at the next argument for the preload file name,
        -- then `Preload(preloadfile); return(0);`
        let file := if rest.headD [] ≠ [] then rest.headD [] else DEFAULT_PRELOAD
        (0, [.mpreload file])
      else if arg[1]? = some 'a' then
        let d := displayRoot env fl false
        (d.1, [.mdisplay d.1])
      else if arg[1]? = some 'A' ∨ arg[1]? = some 'X' then
        let d := displayRoot env fl true
        (d.1, [.mdisplay d.1])
      else if arg[1]? = some 'h' ∨ arg[1]? = some '?' then (-1, [.musage])
      else (-1, [.munknown arg, .musage])
    else
      if wm then
        -- `ReturnCode = WriteSetting(*argv);` (assignment, not `|=`)
        let w := WriteSetting env.fopenW fl arg
        let t := mainLoop env fl false wm w.rc rest
        (t.1, .mwrite arg w.rc :: t.2)
      else
        -- `else ReadSetting(*argv);` with the return code dropped
        let r := ReadSetting env.fopenR fl arg
        let t := mainLoop env fl false wm rc rest
        (t.1, .mread arg r.rc :: t.2)

/-- The argument loop entered with the initial state `main` sets up. -/
def mainRun (env : Env) (args : List Str) : Int × List MEvent :=
  mainLoop env initFlags true false 0 args

/-- Model of `main` for a given vector of command-line arguments (after the program
name): `argc < 2` prints usage and returns `-1`. -/
def cmain (env : Env) (args : List Str) : Int × List MEvent :=
  if args = [] then (-1, [.musage]) else mainRun env args

/-! ## Helper lemmas -/

theorem isDelim_iff {c : Char} : isDelim c = true ↔ c = '/' ∨ c = '.' := by
  simp [isDelim]

theorem find_isDelim_eq {l : Str} {c : Char} (hc : isDelim c = true)
    (h1 : c ∈ l) (h2 : ∀ d ∈ l, isDelim d = true → d = c) :
    l.find? isDelim = some c := by
  induction l with
  | nil => cases h1
  | cons a as ih =>
    by_cases ha : isDelim a = true
    · have hac : a = c := h2 a (List.mem_cons_self a as) ha
      subst hac
      simp [List.find?, ha]
    · have ha' : isDelim a = false := by simpa using ha
      have hac : a ≠ c := fun h => ha (h ▸ hc)
      simp only [List.find?, ha']
      have h1' : c ∈ as := by
        rcases List.mem_cons.mp h1 with h | h
        · exact absurd h.symm hac
        · exact h
      exact ih h1' fun d hd => h2 d (List.mem_cons_of_mem _ hd)

theorem slashdot_fun_eq (old new : Char) (hon : (old = '.' ∧ new = '/') ∨ (old = '/' ∧ new = '.')) :
    ∀ d : Char, (if isDelim d then swapOldNew old new d else d) =
      (if d = '.' then '/' else if d = '/' then '.' else d) := by
  intro d
  by_cases h1 : d = '.'
  · subst h1
    rcases hon with ⟨ho, hn⟩ | ⟨ho, hn⟩ <;> subst ho <;> subst hn <;> decide
  · by_cases h2 : d = '/'
    · subst h2
      rcases hon with ⟨ho, hn⟩ | ⟨ho, hn⟩ <;> subst ho <;> subst hn <;> decide
    · have hd : isDelim d = false := by
        simp [isDelim, h1, h2]
      simp [hd, h1, h2]

/-! ## Claim C3 -/

/-- C3 counterexample: the claim says `slashdot` swaps every `.` and `/`
in a single uniform pass over the whole string, but on `"a/b.c"` with
`old = '.'`, `new = '/'` the code returns the string unchanged (the first
delimiter found is already `'/'`, triggering the early
`if(*p==new) return;`), whereas the uniform swap would give `"a.b/c"`. -/
theorem C3_counterexample :
    slashdot "a/b.c".toList '.' '/' = "a/b.c".toList ∧
    swapAllSpec "a/b.c".toList = "a.b/c".toList ∧
    "a/b.c".toList ≠ "a.b/c".toList := by
  refine ⟨by decide, by decide, by decide⟩

/-- C3 (amended): `slashdot` swaps every occurrence of `.` to `/` and of
`/` to `.` in a single uniform pass provided the first delimiter of the
string is the `old` character; if the string contains no delimiter, or
its first delimiter is already the `new` character, it is returned
unchanged. `KeyToPath("net.ipv4.ip_forward") = "net/ipv4/ip_forward"`
holds as claimed. -/
theorem C3_slashdot_swap :
    (∀ s : Str, s.find? isDelim = none →
      slashdot s '.' '/' = s ∧ slashdot s '/' '.' = s) ∧
    (∀ s : Str, s.find? isDelim = some '.' →
      slashdot s '.' '/' = swapAllSpec s ∧ slashdot s '/' '.' = s) ∧
    (∀ s : Str, s.find? isDelim = some '/' →
      slashdot s '/' '.' = swapAllSpec s ∧ slashdot s '.' '/' = s) ∧
    KeyToPath "net.ipv4.ip_forward".toList = "net/ipv4/ip_forward".toList := by
  refine ⟨?_, ?_, ?_, by decide⟩
  · intro s h
    constructor <;> simp [slashdot, h]
  · intro s h
    constructor
    · simp only [slashdot, h]
      rw [if_neg (by decide)]
      exact List.map_congr_left fun d _ => slashdot_fun_eq '.' '/' (Or.inl ⟨rfl, rfl⟩) d
    · simp [slashdot, h]
  · intro s h
    constructor
    · simp only [slashdot, h]
      rw [if_neg (by decide)]
      exact List.map_congr_left fun d _ => slashdot_fun_eq '/' '.' (Or.inr ⟨rfl, rfl⟩) d
    · simp [slashdot, h]

/-- Witness for C3's amended theorem at concrete inputs. -/
theorem C3_slashdot_swap_witness :
    slashdot "ab".toList '.' '/' = "ab".toList ∧
    slashdot "a.b".toList '.' '/' = swapAllSpec "a.b".toList ∧
    slashdot "a/b".toList '/' '.' = swapAllSpec "a/b".toList :=
  ⟨(C3_slashdot_swap.1 "ab".toList (by decide)).1,
   (C3_slashdot_swap.2.1 "a.b".toList (by decide)).1,
   (C3_slashdot_swap.2.2.1 "a/b".toList (by decide)).1⟩

/-! ## Claim C4 -/

/-- C4: for every key `K` containing at least one `.` and no `/`,
`PathToKey (KeyToPath K) = K`. -/
theorem C4_roundtrip (K : Str) (h1 : '.' ∈ K) (h2 : '/' ∉ K) :
    PathToKey (KeyToPath K) = K := by
  have hf : K.find? isDelim = some '.' := by
    refine find_isDelim_eq (by decide) h1 fun d hd hdel => ?_
    rcases isDelim_iff.mp hdel with h | h
    · exact absurd (h ▸ hd) h2
    · exact h
  have e1 : KeyToPath K =
      K.map (fun d => if isDelim d then swapOldNew '.' '/' d else d) := by
    simp only [KeyToPath, slashdot, hf]
    rw [if_neg (by decide)]
  set f : Char → Char := fun d => if isDelim d then swapOldNew '.' '/' d else d with hfdef
  have hmem : '/' ∈ K.map f := List.mem_map.mpr ⟨'.', h1, by decide⟩
  have hnod : '.' ∉ K.map f := by
    intro hcon
    rcases List.mem_map.mp hcon with ⟨c, hcK, hfc⟩
    by_cases hc1 : c = '.'
    · subst hc1
      exact absurd hfc (by decide)
    · by_cases hc2 : c = '/'
      · exact h2 (hc2 ▸ hcK)
      · have hnd : isDelim c = false := by simp [isDelim, hc1, hc2]
        have : f c = c := by simp [hfdef, hnd]
        rw [this] at hfc
        exact hc1 hfc
  have hf2 : (K.map f).find? isDelim = some '/' := by
    refine find_isDelim_eq (by decide) hmem fun d hd hdel => ?_
    rcases isDelim_iff.mp hdel with h | h
    · exact h
    · exact absurd (h ▸ hd) hnod
  have e2 : PathToKey (K.map f) =
      (K.map f).map (fun d => if isDelim d then swapOldNew '/' '.' d else d) := by
    simp only [PathToKey, slashdot, hf2]
    rw [if_neg (by decide)]
  rw [e1, e2, List.map_map]
  have hcomp : ∀ c ∈ K,
      ((fun d => if isDelim d then swapOldNew '/' '.' d else d) ∘ f) c = c := by
    intro c hcK
    by_cases hc1 : c = '.'
    · subst hc1; decide
    · by_cases hc2 : c = '/'
      · exact absurd (hc2 ▸ hcK) h2
      · have hnd : isDelim c = false := by simp [isDelim, hc1, hc2]
        simp [hfdef, hnd, Function.comp]
  calc K.map ((fun d => if isDelim d then swapOldNew '/' '.' d else d) ∘ f)
      = K.map id := List.map_congr_left hcomp
    _ = K := List.map_id K

/-- Witness for C4 at `K = "a.b"`. -/
theorem C4_roundtrip_witness :
    '.' ∈ "a.b".toList ∧ '/' ∉ "a.b".toList ∧
    PathToKey (KeyToPath "a.b".toList) = "a.b".toList :=
  ⟨by decide, by decide, C4_roundtrip "a.b".toList (by decide) (by decide)⟩

theorem findIdx_first_eq (name value : Str) (h : '=' ∉ name) :
    (name ++ '=' :: value).findIdx? (· = '=') = some name.length := by
  induction name with
  | nil => simp [List.findIdx?_cons]
  | cons c cs ih =>
    have hc : c ≠ '=' := fun hcontra => h (hcontra ▸ List.mem_cons_self c cs)
    have ih' := ih fun hx => h (List.mem_cons_of_mem c hx)
    simp [List.findIdx?_cons, hc, ih']

/-! ## Claim C5 -/

/-- C5: for both `WriteSetting` and `ReadSetting`, a failing `fopen` is
classified exactly by `errno`: `ENOENT` gives the invalid-key message,
`EACCES` the permission-denied message, anything else the unknown-error
message carrying the raw error number; the return code is `-1` and
nothing is printed to stdout (and nothing is written). -/
theorem C5_open_error_classification (e : Nat) (fl : Flags)
    (name value key : Str) (hn : name ≠ []) (hv : value ≠ [])
    (hne : '=' ∉ name) (hk : key ≠ []) :
    (let w := WriteSetting (fun _ => .error e) fl (name ++ '=' :: value)
     w.rc = -1 ∧ w.out = [] ∧ w.writes = [] ∧
     w.err = [if e = ENOENT then .invalidKey (slashdot name '/' '.')
              else if e = EACCES then .permissionDenied (slashdot name '/' '.')
              else .unknownWriting e (slashdot name '/' '.')]) ∧
    (let r := ReadSetting (fun _ => .error e) fl key
     r.rc = -1 ∧ r.out = [] ∧
     r.err = [if e = ENOENT then .invalidKey (slashdot key '/' '.')
              else if e = EACCES then .permissionDenied (slashdot key '/' '.')
              else .unknownReading e (slashdot key '/' '.')]) := by
  constructor
  · have hidx : (name ++ '=' :: value).findIdx? (· = '=') = some name.length :=
      findIdx_first_eq name value hne
    have htake : (name ++ '=' :: value).take name.length = name :=
      List.take_left name ('=' :: value)
    have hdrop : (name ++ '=' :: value).drop (name.length + 1) = value := by
      have hsplit : name ++ '=' :: value = (name ++ ['=']) ++ value := by simp
      rw [hsplit, List.drop_left']
      simp
    simp only [WriteSetting, hidx, htake, hdrop]
    rw [if_neg (by simp [hn, hv])]
    simp
  · simp only [ReadSetting]
    rw [if_neg hk]
    simp

/-- Witness for C5 at `e = 5`, setting `a=1`, key `k`. -/
theorem C5_open_error_classification_witness :
    (let w := WriteSetting (fun _ => .error 5) initFlags
       ("a".toList ++ '=' :: "1".toList)
     w.rc = -1 ∧ w.out = [] ∧ w.writes = [] ∧
     w.err = [if 5 = ENOENT then .invalidKey (slashdot "a".toList '/' '.')
              else if 5 = EACCES then
                .permissionDenied (slashdot "a".toList '/' '.')
              else .unknownWriting 5 (slashdot "a".toList '/' '.')]) ∧
    (let r := ReadSetting (fun _ => .error 5) initFlags "k".toList
     r.rc = -1 ∧ r.out = [] ∧
     r.err = [if 5 = ENOENT then .invalidKey (slashdot "k".toList '/' '.')
              else if 5 = EACCES then
                .permissionDenied (slashdot "k".toList '/' '.')
              else .unknownReading 5 (slashdot "k".toList '/' '.')]) :=
  C5_open_error_classification 5 initFlags "a".toList "1".toList "k".toList
    (by decide) (by decide) (by decide) (by decide)

/-! ## Claim C6 -/

/-- C6: a setting with no `=`, or with an empty key side or empty value
side of the first `=`, makes `WriteSetting` fail (`NO_EQUALS` or
`MALFORMED_SETTING`) with a nonzero return code, with no `fopen` call and
no filesystem write and no stdout output. -/
theorem C6_malformed_before_open (fopenW : Str → Except Nat Unit) (fl : Flags)
    (s : Str)
    (h : '=' ∉ s ∨ ∃ i, s.findIdx? (· = '=') = some i ∧
      (s.take i = [] ∨ s.drop (i + 1) = [])) :
    (WriteSetting fopenW fl s).rc ≠ 0 ∧
    (WriteSetting fopenW fl s).opens = [] ∧
    (WriteSetting fopenW fl s).writes = [] ∧
    (WriteSetting fopenW fl s).out = [] ∧
    ((WriteSetting fopenW fl s).err = [.noEquals s] ∨
     (WriteSetting fopenW fl s).err = [.malformed s]) := by
  rcases h with h | ⟨i, hi, hside⟩
  · have hnone : s.findIdx? (· = '=') = none := by
      rw [List.findIdx?_eq_none_iff]
      intro x hx
      simp only [decide_eq_false_iff_not]
      exact fun hcontra => h (hcontra ▸ hx)
    simp [WriteSetting, hnone]
  · simp only [WriteSetting, hi]
    rw [if_pos hside]
    simp

/-- Witness for C6 at `s = "noequals"`. -/
theorem C6_malformed_before_open_witness :
    (WriteSetting (fun _ => .ok ()) initFlags "noequals".toList).rc ≠ 0 ∧
    (WriteSetting (fun _ => .ok ()) initFlags "noequals".toList).opens = [] ∧
    (WriteSetting (fun _ => .ok ()) initFlags "noequals".toList).writes = [] ∧
    (WriteSetting (fun _ => .ok ()) initFlags "noequals".toList).out = [] ∧
    ((WriteSetting (fun _ => .ok ()) initFlags "noequals".toList).err
        = [.noEquals "noequals".toList] ∨
     (WriteSetting (fun _ => .ok ()) initFlags "noequals".toList).err
        = [.malformed "noequals".toList]) :=
  C6_malformed_before_open (fun _ => .ok ()) initFlags "noequals".toList
    (Or.inl (by decide))

/-! ## Claim C8 -/

/-- C8 counterexample: with `-b` (no name prefix, no trailing newline) the
claim says only the final emitted line loses its terminator, but on a
two-line file the code strips the newline from every line: the output is
`["a", "b"]`, not the claimed `["a\n", "b"]`. -/
theorem C8_counterexample :
    (ReadSetting (fun _ => .ok ["a\n".toList, "b\n".toList]) ⟨false, false⟩
        "k".toList).out = [['a'], ['b']] ∧
    readOutSpecFinalOnly ["a\n".toList, "b\n".toList] = ["a\n".toList, ['b']] ∧
    ([['a'], ['b']] : List Str) ≠ ["a\n".toList, ['b']] := by
  refine ⟨by decide, by decide, by decide⟩

/-- C8 (amended): `ReadSetting` streams each chunk to stdout; with `-b`
(name prefix off, newline suppression on) the part of every emitted chunk
from its first newline onwards is dropped — not just on the final line —
while with `-n` every chunk is emitted verbatim; a single-line file with
value `1\n` prints exactly `1` under `-b` and exactly `1\n` under `-n`,
and a successful read returns 0. -/
theorem C8_newline_suppression :
    (∀ (chunks : List Str) (key : Str),
      (ReadSetting (fun _ => .ok chunks) ⟨false, false⟩ key).out
        = chunks.map (·.takeWhile (· ≠ '\n'))) ∧
    (∀ (chunks : List Str) (key : Str),
      (ReadSetting (fun _ => .ok chunks) ⟨false, true⟩ key).out = chunks) ∧
    (∀ (chunks : List Str) (key : Str) (fl : Flags),
      (ReadSetting (fun _ => .ok chunks) fl key).rc = 0) ∧
    (ReadSetting (fun _ => .ok ["1\n".toList]) ⟨false, false⟩ "a.b".toList).out
      = [['1']] ∧
    (ReadSetting (fun _ => .ok ["1\n".toList]) ⟨false, true⟩ "a.b".toList).out
      = ["1\n".toList] := by
  refine ⟨?_, ?_, ?_, by decide, by decide⟩
  · intro chunks key
    simp [ReadSetting]
  · intro chunks key
    simp [ReadSetting]
  · intro chunks key fl
    simp [ReadSetting]

theorem preloadLines_warn_mem (file : Str) :
    ∀ (lines : List Str) (n i : Nat) (l : Str), lines[i]? = some l →
      lineAction l = .warn → PEvent.pwarn file (n + i) ∈ preloadLines file n lines := by
  intro lines
  induction lines with
  | nil => intro n i l h; simp at h
  | cons a as ih =>
    intro n i l h hw
    cases i with
    | zero =>
      simp only [List.getElem?_cons_zero, Option.some.injEq] at h
      subst h
      simp [preloadLines, hw]
    | succ j =>
      have h' : as[j]? = some l := by simpa using h
      have hmem := ih (n + 1) j l h' hw
      have harith : n + (j + 1) = n + 1 + j := by omega
      rw [harith]
      exact List.mem_append.mpr (Or.inr hmem)

theorem preloadLines_write_mem (file : Str) :
    ∀ (lines : List Str) (n i : Nat) (l s : Str), lines[i]? = some l →
      lineAction l = .write s → PEvent.pwrite s ∈ preloadLines file n lines := by
  intro lines
  induction lines with
  | nil => intro n i l s h; simp at h
  | cons a as ih =>
    intro n i l s h hw
    cases i with
    | zero =>
      simp only [List.getElem?_cons_zero, Option.some.injEq] at h
      subst h
      simp [preloadLines, hw]
    | succ j =>
      have h' : as[j]? = some l := by simpa using h
      exact List.mem_append.mpr (Or.inr (ih (n + 1) j l s h' hw))

/-! ## Claim C7 -/

/-- C7 counterexample: the claim says a line whose name side of the `=`
is empty after stripping warns and is skipped, but for the line `=a=b`
(empty name side: nothing precedes the first `=`) `strtok` skips the
leading `=` run, so the code dispatches the write `a=b` and emits no
warning. -/
theorem C7_counterexample :
    "=a=b".toList.takeWhile (· ≠ '=') = [] ∧
    Preload "conf".toList ["=a=b".toList] = [.pwrite "a=b".toList] ∧
    ([PEvent.pwrite "a=b".toList] : List PEvent)
      ≠ [PEvent.pwarn "conf".toList 1] := by
  refine ⟨by decide, by decide, by decide⟩

/-- C7 (amended): preload lines are numbered 1-based counting every
physical line; a line the parser rejects (no name token left after
`strtok` skips a leading `='`-run, or no value token after the consumed
separator — which covers empty value sides, missing `=`, and empty name
sides with no second `=`, but an empty name side followed by another `=`
is instead reparsed past the leading `='`-run and dispatched as a write)
warns with the source name and that line number without aborting; each
accepted line is reassembled as `name=value` (trailing whitespace
stripped from the name, leading whitespace stripped from the value) and
dispatched to the write path; the 4-line example source yields exactly
one write `foo.bar=42` and one warning reporting line 4. -/
theorem C7_preload_lines :
    (∀ (file : Str) (lines : List Str) (i : Nat) (l : Str),
      lines[i]? = some l → lineAction l = .warn →
      PEvent.pwarn file (i + 1) ∈ Preload file lines) ∧
    (∀ (file : Str) (lines : List Str) (i : Nat) (l s : Str),
      lines[i]? = some l → lineAction l = .write s →
      PEvent.pwrite s ∈ Preload file lines) ∧
    Preload "conf".toList
        ["# comment".toList, [], "foo.bar = 42".toList, "badline".toList]
      = [.pwrite "foo.bar=42".toList, .pwarn "conf".toList 4] := by
  refine ⟨?_, ?_, by decide⟩
  · intro file lines i l h hw
    have := preloadLines_warn_mem file lines 1 i l h hw
    rwa [Nat.add_comm] at this
  · intro file lines i l s h hw
    exact preloadLines_write_mem file lines 1 i l s h hw

/-- Witness for C7's amended theorem on the 4-line example source. -/
theorem C7_preload_lines_witness :
    PEvent.pwarn "conf".toList 4 ∈ Preload "conf".toList
      ["# comment".toList, [], "foo.bar = 42".toList, "badline".toList] ∧
    PEvent.pwrite "foo.bar=42".toList ∈ Preload "conf".toList
      ["# comment".toList, [], "foo.bar = 42".toList, "badline".toList] :=
  ⟨C7_preload_lines.1 "conf".toList _ 3 "badline".toList (by decide) (by decide),
   C7_preload_lines.2.1 "conf".toList _ 2 "foo.bar = 42".toList
     "foo.bar=42".toList (by decide) (by decide)⟩

theorem ReadSetting_rc (res : Except Nat (List Str)) (fl : Flags) (key : Str) :
    (ReadSetting (fun _ => res) fl key).rc = if resFails res then -1 else 0 := by
  cases res <;> simp [ReadSetting, resFails]

theorem Nat_ldiff_zero (n : Nat) : Nat.ldiff n 0 = n :=
  Nat.eq_of_testBit_eq fun k => by simp [Nat.testBit_ldiff]

theorem Nat_zero_ldiff (n : Nat) : Nat.ldiff 0 n = 0 :=
  Nat.eq_of_testBit_eq fun k => by simp [Nat.testBit_ldiff]

theorem Nat_zero_land (n : Nat) : 0 &&& n = 0 := Nat.zero_and n

/-- Identity `0 | x = x` for the `int` OR used by `rc |= ...`. -/
theorem Int_zero_lor (x : Int) : Int.lor 0 x = x := by
  cases x with
  | ofNat n =>
    show Int.lor (Int.ofNat 0) (Int.ofNat n) = Int.ofNat n
    rw [Int.lor]
    simp
  | negSucc n =>
    show Int.lor (Int.ofNat 0) (Int.negSucc n) = Int.negSucc n
    rw [Int.lor, Nat_ldiff_zero]

/-- Absorption `-1 | x = -1` for the `int` OR used by `rc |= ...`. -/
theorem Int_negOne_lor (x : Int) : Int.lor (-1) x = -1 := by
  cases x with
  | ofNat n =>
    show Int.lor (Int.negSucc 0) (Int.ofNat n) = Int.negSucc 0
    rw [Int.lor, Nat_zero_ldiff]
  | negSucc n =>
    show Int.lor (Int.negSucc 0) (Int.negSucc n) = Int.negSucc 0
    rw [Int.lor, Nat_zero_land]

theorem goEntries_succ (fl : Flags) (path : Str) (n : Nat) (rc : Int)
    (t : Tree) : goEntries fl path (n + 1) rc t = goEntries fl path n rc (ttail t) := by
  cases t <;> simp [goEntries, ttail]

theorem goEntries_rc (fl : Flags) (path : Str) :
    ∀ (t : Tree) (skip : Nat) (rc : Int), rc = 0 ∨ rc = -1 →
      (goEntries fl path skip rc t).1
        = if rc = -1 ∨ (topFiles skip t).any (fun p => resFails p.2) then -1
          else 0 := by
  intro t
  induction t with
  | tnil =>
    intro skip rc hrc
    rcases hrc with h | h <;> subst h <;> simp [goEntries, topFiles]
  | tfile nm rs rest ih =>
    intro skip rc hrc
    cases skip with
    | succ n => simpa [goEntries, topFiles] using ih n rc hrc
    | zero =>
      rcases hrc with h | h <;> subst h <;> cases hres : resFails rs <;>
        simp only [goEntries, topFiles, List.any_cons, ReadSetting_rc, hres,
          Bool.false_or, Bool.true_or, if_true, if_false, ite_true, ite_false,
          Int_zero_lor, Int_negOne_lor,
          ih 0 0 (Or.inl rfl), ih 0 (-1) (Or.inr rfl)] <;>
        first
        | rfl
        | exact ih 0 0 (Or.inl rfl)
  | tstatfail nm rest ih =>
    intro skip rc hrc
    cases skip with
    | succ n => simpa [goEntries, topFiles] using ih n rc hrc
    | zero => simpa [goEntries, topFiles] using ih 0 rc hrc
  | tdir nm sub rest ihsub ihrest =>
    intro skip rc hrc
    cases skip with
    | succ n => simpa [goEntries, topFiles] using ihrest n rc hrc
    | zero => simpa [goEntries, topFiles] using ihrest 0 rc hrc
  | tdirfail nm rest ih =>
    intro skip rc hrc
    cases skip with
    | succ n => simpa [goEntries, topFiles] using ih n rc hrc
    | zero => simpa [goEntries, topFiles] using ih 0 rc hrc

theorem goEntries_file_event (fl : Flags) (path : Str) :
    ∀ (t : Tree) (skip : Nat) (rc : Int) (name : Str)
      (res : Except Nat (List Str)), (name, res) ∈ topFiles skip t →
      DEvent.dread ((path ++ name).drop PROC_PATH.length)
          (ReadSetting (fun _ => res) fl
            ((path ++ name).drop PROC_PATH.length)).rc
        ∈ (goEntries fl path skip rc t).2 := by
  intro t
  induction t with
  | tnil => intro skip rc name res h; simp [topFiles] at h
  | tfile nm rs rest ih =>
    intro skip rc name res h
    cases skip with
    | succ n =>
      simp only [topFiles] at h
      simpa [goEntries] using ih n rc name res h
    | zero =>
      simp only [topFiles, List.mem_cons] at h
      rcases h with h | h
      · have h1 : name = nm := congrArg Prod.fst h
        have h2 : res = rs := congrArg Prod.snd h
        subst h1
        subst h2
        simp [goEntries]
      · simp only [goEntries]
        exact List.mem_cons_of_mem _ (ih 0 _ name res h)
  | tstatfail nm rest ih =>
    intro skip rc name res h
    cases skip with
    | succ n =>
      simp only [topFiles] at h
      simpa [goEntries] using ih n rc name res h
    | zero =>
      simp only [topFiles] at h
      simp only [goEntries]
      exact List.mem_cons_of_mem _ (ih 0 rc name res h)
  | tdir nm sub rest ihsub ihrest =>
    intro skip rc name res h
    cases skip with
    | succ n =>
      simp only [topFiles] at h
      simpa [goEntries] using ihrest n rc name res h
    | zero =>
      simp only [topFiles] at h
      simp only [goEntries]
      exact List.mem_append.mpr (Or.inr (ihrest 0 rc name res h))
  | tdirfail nm rest ih =>
    intro skip rc name res h
    cases skip with
    | succ n =>
      simp only [topFiles] at h
      simpa [goEntries] using ih n rc name res h
    | zero =>
      simp only [topFiles] at h
      simp only [goEntries]
      exact List.mem_cons_of_mem _ (ih 0 rc name res h)

theorem goEntries_stat_event (fl : Flags) (path : Str) :
    ∀ (t : Tree) (skip : Nat) (rc : Int) (name : Str),
      name ∈ topStats skip t →
      DEvent.dstat (path ++ name) ∈ (goEntries fl path skip rc t).2 := by
  intro t
  induction t with
  | tnil => intro skip rc name h; simp [topStats] at h
  | tfile nm rs rest ih =>
    intro skip rc name h
    cases skip with
    | succ n =>
      simp only [topStats] at h
      simpa [goEntries] using ih n rc name h
    | zero =>
      simp only [topStats] at h
      simp only [goEntries]
      exact List.mem_cons_of_mem _ (ih 0 _ name h)
  | tstatfail nm rest ih =>
    intro skip rc name h
    cases skip with
    | succ n =>
      simp only [topStats] at h
      simpa [goEntries] using ih n rc name h
    | zero =>
      simp only [topStats, List.mem_cons] at h
      rcases h with h | h
      · subst h
        simp [goEntries]
      · simp only [goEntries]
        exact List.mem_cons_of_mem _ (ih 0 rc name h)
  | tdir nm sub rest ihsub ihrest =>
    intro skip rc name h
    cases skip with
    | succ n =>
      simp only [topStats] at h
      simpa [goEntries] using ihrest n rc name h
    | zero =>
      simp only [topStats] at h
      simp only [goEntries]
      exact List.mem_append.mpr (Or.inr (ihrest 0 rc name h))
  | tdirfail nm rest ih =>
    intro skip rc name h
    cases skip with
    | succ n =>
      simp only [topStats] at h
      simpa [goEntries] using ih n rc name h
    | zero =>
      simp only [topStats] at h
      simp only [goEntries]
      exact List.mem_cons_of_mem _ (ih 0 rc name h)

theorem goEntries_dir_events (fl : Flags) (path : Str) :
    ∀ (t : Tree) (skip : Nat) (rc : Int) (name : Str) (sub : Tree)
      (e : DEvent), (name, sub) ∈ topDirs skip t →
      e ∈ (goEntries fl (path ++ name ++ ['/']) 2 0 sub).2 →
      e ∈ (goEntries fl path skip rc t).2 := by
  intro t
  induction t with
  | tnil => intro skip rc name sub e h he; simp [topDirs] at h
  | tfile nm rs rest ih =>
    intro skip rc name sub e h he
    cases skip with
    | succ n =>
      simp only [topDirs] at h
      simpa [goEntries] using ih n rc name sub e h he
    | zero =>
      simp only [topDirs] at h
      simp only [goEntries]
      exact List.mem_cons_of_mem _ (ih 0 _ name sub e h he)
  | tstatfail nm rest ih =>
    intro skip rc name sub e h he
    cases skip with
    | succ n =>
      simp only [topDirs] at h
      simpa [goEntries] using ih n rc name sub e h he
    | zero =>
      simp only [topDirs] at h
      simp only [goEntries]
      exact List.mem_cons_of_mem _ (ih 0 rc name sub e h he)
  | tdir nm sb rest ihsub ihrest =>
    intro skip rc name sub e h he
    cases skip with
    | succ n =>
      simp only [topDirs] at h
      simpa [goEntries] using ihrest n rc name sub e h he
    | zero =>
      simp only [topDirs, List.mem_cons] at h
      rcases h with h | h
      · have h1 : name = nm := congrArg Prod.fst h
        have h2 : sub = sb := congrArg Prod.snd h
        subst h1
        subst h2
        simp only [goEntries]
        exact List.mem_append.mpr (Or.inl he)
      · simp only [goEntries]
        exact List.mem_append.mpr (Or.inr (ihrest 0 rc name sub e h he))
  | tdirfail nm rest ih =>
    intro skip rc name sub e h he
    cases skip with
    | succ n =>
      simp only [topDirs] at h
      simpa [goEntries] using ih n rc name sub e h he
    | zero =>
      simp only [topDirs] at h
      simp only [goEntries]
      exact List.mem_cons_of_mem _ (ih 0 rc name sub e h he)

/-! ## Claim C1 -/

/-- C1 counterexample: a root whose only (post-skip) entry is a
subdirectory containing a leaf whose read fails. The failing read is
attempted (its `dread` event with return code `-1` is present), yet the
aggregate status of the enumeration is `0`, because line 419 discards the
return value of the recursive `DisplayAll` call. The claim's "read
failure anywhere in any subtree yields a nonzero final status" is false. -/
theorem C1_counterexample :
    (DisplayAllT initFlags true PROC_PATH
        (.tstatfail ".".toList (.tstatfail "..".toList
          (.tdir "sub".toList
            (.tstatfail ".".toList (.tstatfail "..".toList
              (.tfile "f".toList (.error 13) .tnil))) .tnil)))).1 = 0 ∧
    DEvent.dread "sub/f".toList (-1) ∈
      (DisplayAllT initFlags true PROC_PATH
        (.tstatfail ".".toList (.tstatfail "..".toList
          (.tdir "sub".toList
            (.tstatfail ".".toList (.tstatfail "..".toList
              (.tfile "f".toList (.error 13) .tnil))) .tnil)))).2 := by
  refine ⟨by decide, by decide⟩

/-- C1 (amended): the aggregate status of `DisplayAll` is the OR of the
return codes of the leaf-level reads of the directory's own (post-skip)
entries only — the return codes of recursive subdirectory enumerations
are discarded, so a failure confined to a deeper subtree leaves the final
status `0` — while enumeration is still exhaustive: every leaf entry of
the level is read (its `dread` event, with the `ReadSetting` return code,
appears) and all events of every subdirectory's enumeration appear; no
failure stops the walk early. -/
theorem C1_aggregate_status :
    (∀ (fl : Flags) (stu : Bool) (path : Str) (t : Tree),
      (DisplayAllT fl stu path t).1
        = if (topFiles 2 t).any (fun p => resFails p.2) then -1 else 0) ∧
    (∀ (fl : Flags) (stu : Bool) (path : Str) (t : Tree) (name : Str)
        (res : Except Nat (List Str)), (name, res) ∈ topFiles 2 t →
      DEvent.dread ((path ++ name).drop PROC_PATH.length)
          (ReadSetting (fun _ => res) fl
            ((path ++ name).drop PROC_PATH.length)).rc
        ∈ (DisplayAllT fl stu path t).2) ∧
    (∀ (fl : Flags) (stu stu' : Bool) (path : Str) (t : Tree) (name : Str)
        (sub : Tree) (e : DEvent), (name, sub) ∈ topDirs 2 t →
      e ∈ (DisplayAllT fl stu' (path ++ name ++ ['/']) sub).2 →
      e ∈ (DisplayAllT fl stu path t).2) := by
  refine ⟨?_, ?_, ?_⟩
  · intro fl stu path t
    have h := goEntries_rc fl path t 2 0 (Or.inl rfl)
    show (goEntries fl path 2 0 t).1 = _
    rw [h]
    exact if_congr (or_iff_right (by decide)) rfl rfl
  · intro fl stu path t name res h
    exact goEntries_file_event fl path t 2 0 name res h
  · intro fl stu stu' path t name sub e h he
    exact goEntries_dir_events fl path t 2 0 name sub e h he

/-- Witness for C1's amended theorem: a failing leaf directly below the
root produces its `dread` event in the enumeration's event list. -/
theorem C1_aggregate_status_witness :
    DEvent.dread (("/proc/sys/".toList ++ "f".toList).drop PROC_PATH.length)
        (ReadSetting (fun _ => (.error 2 : Except Nat (List Str))) initFlags
          (("/proc/sys/".toList ++ "f".toList).drop PROC_PATH.length)).rc
      ∈ (DisplayAllT initFlags true "/proc/sys/".toList
          (.tstatfail ".".toList (.tstatfail "..".toList
            (.tfile "f".toList (.error 2) .tnil)))).2 :=
  C1_aggregate_status.2.1 initFlags true "/proc/sys/".toList
    (.tstatfail ".".toList (.tstatfail "..".toList
      (.tfile "f".toList (.error 2) .tnil)))
    "f".toList (.error 2) (by decide)

/-! ## Claim C9 -/

/-- C9 counterexample: the enumerator skips the first two `readdir`
results positionally, not the entries named `.` and `..`. In a listing
where a regular entry `x` comes first and `.`/`..` come later, the code
skips `x` and `.`, then processes `..` (its `stat` report appears) and
`y`; the claim's name-based skipping would instead read `x` and `y`. -/
theorem C9_counterexample :
    (DisplayAllT initFlags true PROC_PATH
        (.tfile "x".toList (.ok ["1\n".toList]) (.tstatfail ".".toList
          (.tstatfail "..".toList
            (.tfile "y".toList (.ok ["2\n".toList]) .tnil))))).2
      = [DEvent.dstat "/proc/sys/..".toList, DEvent.dread "y".toList 0] ∧
    enumSpecEvents initFlags PROC_PATH
        (.tfile "x".toList (.ok ["1\n".toList]) (.tstatfail ".".toList
          (.tstatfail "..".toList
            (.tfile "y".toList (.ok ["2\n".toList]) .tnil))))
      = [DEvent.dread "x".toList 0, DEvent.dread "y".toList 0] ∧
    ([DEvent.dstat "/proc/sys/..".toList, DEvent.dread "y".toList 0]
      ≠ [DEvent.dread "x".toList 0, DEvent.dread "y".toList 0]) := by
  refine ⟨by decide, by decide, by decide⟩

/-- C9 (amended): exactly the first two entries of each directory listing
are skipped, positionally and regardless of their names or kinds (the
result of the enumeration depends only on the listing past its first two
entries), and every remaining entry is classified by the `stat` metadata
query: entries whose `stat` fails are reported and skipped, regular
entries are read, and subdirectory entries are recursed into (all events
of the subdirectory's own enumeration appear). -/
theorem C9_positional_skip :
    (∀ (fl : Flags) (stu : Bool) (path : Str) (t t' : Tree),
      ttail (ttail t) = ttail (ttail t') →
      DisplayAllT fl stu path t = DisplayAllT fl stu path t') ∧
    (∀ (fl : Flags) (stu : Bool) (path : Str) (t : Tree) (name : Str),
      name ∈ topStats 2 t →
      DEvent.dstat (path ++ name) ∈ (DisplayAllT fl stu path t).2) ∧
    (∀ (fl : Flags) (stu : Bool) (path : Str) (t : Tree) (name : Str)
        (res : Except Nat (List Str)), (name, res) ∈ topFiles 2 t →
      (DisplayAllT fl stu path t).2.count
          (DEvent.dread ((path ++ name).drop PROC_PATH.length)
            (ReadSetting (fun _ => res) fl
              ((path ++ name).drop PROC_PATH.length)).rc) ≥ 1) ∧
    (∀ (fl : Flags) (stu stu' : Bool) (path : Str) (t : Tree) (name : Str)
        (sub : Tree) (e : DEvent), (name, sub) ∈ topDirs 2 t →
      e ∈ (DisplayAllT fl stu' (path ++ name ++ ['/']) sub).2 →
      (DisplayAllT fl stu path t).2.count e ≥ 1) := by
  refine ⟨?_, ?_, ?_, ?_⟩
  · intro fl stu path t t' h
    show goEntries fl path 2 0 t = goEntries fl path 2 0 t'
    rw [goEntries_succ, goEntries_succ, goEntries_succ, goEntries_succ, h]
  · intro fl stu path t name h
    exact goEntries_stat_event fl path t 2 0 name h
  · intro fl stu path t name res h
    exact List.one_le_count_iff.mpr (goEntries_file_event fl path t 2 0 name res h)
  · intro fl stu stu' path t name sub e h he
    exact List.one_le_count_iff.mpr (goEntries_dir_events fl path t 2 0 name sub e h he)

/-- Witness for C9's amended theorem: two listings agreeing past their
first two (differently named, differently shaped) entries enumerate
identically, and a stat-failing entry after the skip is reported. -/
theorem C9_positional_skip_witness :
    DisplayAllT initFlags true PROC_PATH
        (.tfile "x".toList (.ok []) (.tstatfail "q".toList .tnil))
      = DisplayAllT initFlags true PROC_PATH
        (.tstatfail ".".toList (.tstatfail "..".toList .tnil)) ∧
    DEvent.dstat (PROC_PATH ++ "s".toList) ∈
      (DisplayAllT initFlags true PROC_PATH
        (.tstatfail ".".toList (.tstatfail "..".toList
          (.tstatfail "s".toList .tnil)))).2 :=
  ⟨C9_positional_skip.1 initFlags true PROC_PATH _ _ (by decide),
   C9_positional_skip.2.1 initFlags true PROC_PATH
     (.tstatfail ".".toList (.tstatfail "..".toList
       (.tstatfail "s".toList .tnil))) "s".toList (by decide)⟩


theorem mainLoop_write_run (env : Env) (fl : Flags) :
    ∀ (settings : List Str) (rc : Int), (∀ s ∈ settings, s ≠ []) →
      mainLoop env fl false true rc settings
        = ((settings.map fun s => (WriteSetting env.fopenW fl s).rc).getLastD rc,
           settings.map fun s => MEvent.mwrite s (WriteSetting env.fopenW fl s).rc) := by
  intro settings
  induction settings with
  | nil => intro rc h; rfl
  | cons a as ih =>
    intro rc h
    have ha : a ≠ [] := h a (List.mem_cons_self a as)
    have hrest : ∀ s ∈ as, s ≠ [] := fun s hs => h s (List.mem_cons_of_mem a hs)
    show (if a = [] then (rc, []) else _) = _
    rw [if_neg ha, if_neg (by simp : ¬((false : Bool) = true ∧ a.head? = some '-')),
      if_pos rfl]
    dsimp only
    rw [ih (WriteSetting env.fopenW fl a).rc hrest, List.map_cons, List.map_cons,
      List.getLastD_cons]

theorem mainLoop_read_run (env : Env) (fl : Flags) :
    ∀ (keys : List Str) (rc : Int), (∀ k ∈ keys, k ≠ []) →
      mainLoop env fl false false rc keys
        = (rc, keys.map fun k => MEvent.mread k (ReadSetting env.fopenR fl k).rc) := by
  intro keys
  induction keys with
  | nil => intro rc h; rfl
  | cons a as ih =>
    intro rc h
    have ha : a ≠ [] := h a (List.mem_cons_self a as)
    have hrest : ∀ k ∈ as, k ≠ [] := fun k hk => h k (List.mem_cons_of_mem a hk)
    show (if a = [] then (rc, []) else _) = _
    rw [if_neg ha, if_neg (by simp : ¬((false : Bool) = true ∧ a.head? = some '-')),
      if_neg (by simp : ¬((false : Bool) = true))]
    dsimp only
    rw [ih rc hrest]
    rfl

theorem headD_append_eq (pre : List Str) (post : List Str) :
    (pre ++ [] :: post).headD [] = (pre ++ [[]]).headD [] := by
  cases pre <;> rfl

theorem mainLoop_stops (env : Env) :
    ∀ (pre : List Str) (fl : Flags) (sw wm : Bool) (rc : Int) (post : List Str),
      mainLoop env fl sw wm rc (pre ++ [] :: post)
        = mainLoop env fl sw wm rc (pre ++ [[]]) := by
  intro pre
  induction pre with
  | nil => intro fl sw wm rc post; rfl
  | cons a pre ih =>
    intro fl sw wm rc post
    by_cases ha : a = []
    · subst ha; rfl
    · simp only [List.cons_append]
      show (if a = [] then (rc, []) else _) = (if a = [] then (rc, []) else _)
      rw [if_neg ha, if_neg ha]
      by_cases hsw : sw = true ∧ a.head? = some '-'
      · rw [if_pos hsw, if_pos hsw]
        by_cases hb : a[1]? = some 'b'
        · rw [if_pos hb, if_pos hb]; exact ih _ _ _ _ _
        · rw [if_neg hb, if_neg hb]
          by_cases hn : a[1]? = some 'n'
          · rw [if_pos hn, if_pos hn]; exact ih _ _ _ _ _
          · rw [if_neg hn, if_neg hn]
            by_cases hw : a[1]? = some 'w'
            · rw [if_pos hw, if_pos hw]; exact ih _ _ _ _ _
            · rw [if_neg hw, if_neg hw]
              by_cases hp : a[1]? = some 'p'
              · rw [if_pos hp, if_pos hp, headD_append_eq]
              · rw [if_neg hp, if_neg hp]
      · rw [if_neg hsw, if_neg hsw]
        by_cases hwm : wm = true
        · rw [if_pos hwm, if_pos hwm]
          dsimp only
          rw [ih]
        · rw [if_neg hwm, if_neg hwm]
          dsimp only
          rw [ih]

/-! ## Claim C2 -/

/-- C2 counterexample: with settings `a.b=1` (whose write fails with
`ENOENT`) followed by `c.d=2` (whose write succeeds), the failing write is
reported in the events but the process exit status is `0`: the dispatcher
executes `ReturnCode = WriteSetting(*argv)`, so a later success overwrites
an earlier failure instead of being OR-aggregated with it. -/
theorem C2_counterexample :
    cmain { fopenW := fun p => if p = "/proc/sys/a/b".toList then .error 2
              else .ok (),
            fopenR := fun _ => .error 2, root := none }
        ["-w".toList, "a.b=1".toList, "c.d=2".toList]
      = (0, [MEvent.mwrite "a.b=1".toList (-1),
             MEvent.mwrite "c.d=2".toList 0]) := by decide

/-- C2 (amended): in write mode every setting on the command line is
processed (an earlier failure does not stop later settings), but the exit
status is the return code of the **last** setting processed — an earlier
failure is overwritten, not OR-aggregated, so it can be lost; in read
mode every key is read and its return code ignored, and the exit status
is `0` regardless of read failures. -/
theorem C2_exit_status :
    (∀ (env : Env) (settings : List Str), (∀ s ∈ settings, s ≠ []) →
      cmain env ("-w".toList :: settings)
        = ((settings.map fun s => (WriteSetting env.fopenW initFlags s).rc).getLastD 0,
           settings.map fun s =>
             MEvent.mwrite s (WriteSetting env.fopenW initFlags s).rc)) ∧
    (∀ (env : Env) (key : Str) (keys : List Str),
      key ≠ [] → key.head? ≠ some '-' → (∀ k ∈ keys, k ≠ []) →
      cmain env (key :: keys)
        = (0, MEvent.mread key (ReadSetting env.fopenR initFlags key).rc ::
            keys.map fun k =>
              MEvent.mread k (ReadSetting env.fopenR initFlags k).rc)) := by
  constructor
  · intro env settings h
    have e1 : cmain env ("-w".toList :: settings)
        = mainLoop env initFlags false true 0 settings := rfl
    rw [e1, mainLoop_write_run env initFlags settings 0 h]
  · intro env key keys hk hnd hkeys
    have e1 : cmain env (key :: keys)
        = mainLoop env initFlags true false 0 (key :: keys) := by
      unfold cmain
      rw [if_neg (List.cons_ne_nil key keys)]
      rfl
    rw [e1]
    show (if key = [] then ((0 : Int), ([] : List MEvent)) else _) = _
    rw [if_neg hk,
      if_neg (by simp [hnd] : ¬((true : Bool) = true ∧ key.head? = some '-')),
      if_neg (by simp : ¬((false : Bool) = true))]
    dsimp only
    rw [mainLoop_read_run env initFlags keys 0 hkeys]

/-- Witness for C2's amended theorem: a single successful write exits 0
with its event recorded; a single failing read still exits 0. -/
theorem C2_exit_status_witness :
    cmain { fopenW := fun _ => .ok (), fopenR := fun _ => .error 2,
            root := none }
        ["-w".toList, "a=1".toList] = (0, [MEvent.mwrite "a=1".toList 0]) ∧
    cmain { fopenW := fun _ => .ok (), fopenR := fun _ => .error 2,
            root := none }
        ["k".toList] = (0, [MEvent.mread "k".toList (-1)]) := by
  constructor
  · exact (C2_exit_status.1 _ ["a=1".toList] (by decide)).trans (by decide)
  · exact (C2_exit_status.2 _ "k".toList [] (by decide) (by decide)
      (by decide)).trans (by decide)

/-! ## Claim C10 -/

/-- C10: the dispatcher's argument loop terminates at an empty-string
argument (`**argv` is the NUL terminator): the result is the status
accumulated so far with no further events, and every argument after the
first empty string is ignored — the run on `pre ++ "" :: post` equals the
run on `pre ++ [""]`, whatever `post` is. -/
theorem C10_empty_argument_stops :
    (∀ (env : Env) (fl : Flags) (sw wm : Bool) (rc : Int) (post : List Str),
      mainLoop env fl sw wm rc ([] :: post) = (rc, [])) ∧
    (∀ (env : Env) (fl : Flags) (sw wm : Bool) (rc : Int)
        (pre post : List Str),
      mainLoop env fl sw wm rc (pre ++ [] :: post)
        = mainLoop env fl sw wm rc (pre ++ [[]])) := by
  refine ⟨?_, ?_⟩
  · intro env fl sw wm rc post
    rfl
  · intro env fl sw wm rc pre post
    exact mainLoop_stops env pre fl sw wm rc post

end Sysctl
